import Mathlib

/-!
Verification of the schema-RAG retrieval core (`schema_rag/service.py`).

The Python service is shallowly embedded: dictionaries become structures with
optional fields, floats become rationals (all weights in the source are exact
dyadic constants), the FAISS index and the sentence-embedding model are black
boxes modelled as an oracle `search : String → Nat → List (Int × ℚ)` returning
(index, distance) pairs, and the regular-expression rules of the entity
extractor are compiled to executable backtracking matchers with Python
`re.search` semantics (leftmost match, lazy/greedy quantifier order,
left-first alternation).
-/

namespace SchemaRag

/-! ## Executable rational arithmetic

Scores are rationals (every weight in the source is an exact dyadic
constant). The library's `Rat.add`, `Rat.sub`, `Rat.mul`, `Rat.inv` are
`@[irreducible]`, so the pipeline below uses the following kernel-computable
equivalents built on `Rat.divInt`; they are proved equal to the standard
operations in the theorem section, through which all algebraic reasoning
transfers. -/

/-- Kernel-computable rational addition. -/
def qadd (a b : ℚ) : ℚ := Rat.divInt (a.num * b.den + a.den * b.num) (a.den * b.den)

/-- Kernel-computable rational subtraction. -/
def qsub (a b : ℚ) : ℚ := Rat.divInt (a.num * b.den - a.den * b.num) (a.den * b.den)

/-- Kernel-computable rational division. -/
def qdiv (a b : ℚ) : ℚ := Rat.divInt (a.num * b.den) (a.den * b.num)

/-- Kernel-computable rational absolute value. -/
def qabs (a : ℚ) : ℚ := Rat.divInt |a.num| a.den

/-! ## String utilities -/

/-- Lowercase a string character by character (Python `str.lower` on ASCII input). -/
def strLower (s : String) : String := String.mk (s.toList.map Char.toLower)

/-- Boolean prefix test on character lists. -/
def listIsPre : List Char → List Char → Bool
  | [], _ => true
  | _ :: _, [] => false
  | c :: cs, d :: ds => c == d && listIsPre cs ds

/-- Boolean substring test on character lists (Python `needle in hay`). -/
def listHasSub : List Char → List Char → Bool
  | n, [] => n.isEmpty
  | n, c :: rest => listIsPre n (c :: rest) || listHasSub n rest

/-- Python's `needle in hay` substring containment on strings. -/
def strHasSub (needle hay : String) : Bool := listHasSub needle.toList hay.toList

/-- Maximal runs of characters satisfying `p`, as strings; `acc` holds the
current run reversed. -/
def runsBy (p : Char → Bool) (acc : List Char) : List Char → List String
  | [] => if acc.isEmpty then [] else [String.mk acc.reverse]
  | c :: rest =>
    if p c then runsBy p (c :: acc) rest
    else if acc.isEmpty then runsBy p [] rest
    else String.mk acc.reverse :: runsBy p [] rest

/-- Python `str.split()` with no argument: maximal runs of non-whitespace. -/
def splitWs (s : String) : List String := runsBy (fun c => !c.isWhitespace) [] s.toList

/-- Test for a lowercase ASCII letter. -/
def isLowerAZ (c : Char) : Bool := 'a' ≤ c && c ≤ 'z'

/-- Matches of the regex `[a-z]+|[A-Z][a-z]*` on an already-lowercased string:
maximal runs of lowercase letters (the uppercase alternative is dead after
lowercasing, as the repository's own tests note). -/
def lowerRuns (s : String) : List String := runsBy isLowerAZ [] s.toList

/-- Python `" ".join(l)`. -/
def joinSpace : List String → String
  | [] => ""
  | [w] => w
  | w :: ws => w ++ " " ++ joinSpace ws

/-- First-occurrence deduplication with an accumulator of already-seen
elements; `dedupFirst` below is Python's `list(dict.fromkeys(l))`. -/
def dedupFirstAux (seen : List String) : List String → List String
  | [] => []
  | x :: xs =>
    if seen.contains x then dedupFirstAux seen xs
    else x :: dedupFirstAux (x :: seen) xs

/-- Python `list(dict.fromkeys(l))`: drop duplicates, keep first occurrences. -/
def dedupFirst (l : List String) : List String := dedupFirstAux [] l

/-! ## Synonym expansion (`_expand_query_synonyms`)

The synonym table (a JSON object) is an insertion-ordered association list
with distinct keys, like a Python `dict`. -/

/-- Synonym table: ordered key/value-list pairs. -/
abbrev SynTable := List (String × List String)

/-- Python `key in synonyms`. -/
def syn_mem (t : SynTable) (k : String) : Bool := (t.lookup k).isSome

/-- Python `synonyms[key]` where absence yields the empty expansion
(the source only indexes after a membership test). -/
def syn_get (t : SynTable) (k : String) : List String := (t.lookup k).getD []

/-- Keys of a synonym table in order. -/
def synKeys (t : SynTable) : List String := t.map Prod.fst

/-- One step of building the reverse map: `reverse_synonyms.setdefault(v, []).append(k)`. -/
def add_rev (m : SynTable) (v k : String) : SynTable :=
  if (m.lookup v).isSome then m.map (fun p => if p.1 = v then (p.1, p.2 ++ [k]) else p)
  else m ++ [(v, [k])]

/-- The reverse synonym map: for every `key -> values` entry and every `v` in
`values`, append `key` to the entry for `v` (lines 112-118 of the source). -/
def build_reverse (t : SynTable) : SynTable :=
  t.foldl (fun m kv => kv.2.foldl (fun m' v => add_rev m' v kv.1) m) []

/-- Replace the value stored at an existing key, keeping its position. -/
def set_key (t : SynTable) (k : String) (vs : List String) : SynTable :=
  t.map (fun p => if p.1 = k then (p.1, vs) else p)

/-- Merge of the reverse map into the main table (lines 120-126). The source
computes `list(set(synonyms[key] + values))`, whose order Python leaves
unspecified; the embedding fixes first-occurrence order, and every theorem
below depends only on membership in the merged value lists. -/
def merge_reverse (t rev : SynTable) : SynTable :=
  rev.foldl (fun s kv =>
    if (s.lookup kv.1).isSome then set_key s kv.1 (dedupFirst (syn_get s kv.1 ++ kv.2))
    else s ++ [kv]) t

/-- The token-expansion loop (lines 132-158). The source's inner
`for phrase_len in range(2, min(5, len(words) - i + 1))` tries phrase lengths
2, 3, 4 in that (ascending) order and only while the phrase fits in the
remaining tokens; the loop is unrolled here per remaining-suffix shape. On a
phrase match the first token plus the phrase's synonyms are emitted and the
whole phrase is consumed; otherwise the token is emitted with its own
synonyms (if any) and the cursor advances by one. -/
def expand_tokens (t : SynTable) : List String → List String
  | [] => []
  | [w] => w :: syn_get t w
  | [w1, w2] =>
    if syn_mem t (joinSpace [w1, w2]) then w1 :: syn_get t (joinSpace [w1, w2])
    else (w1 :: syn_get t w1) ++ expand_tokens t [w2]
  | [w1, w2, w3] =>
    if syn_mem t (joinSpace [w1, w2]) then
      (w1 :: syn_get t (joinSpace [w1, w2])) ++ expand_tokens t [w3]
    else if syn_mem t (joinSpace [w1, w2, w3]) then
      w1 :: syn_get t (joinSpace [w1, w2, w3])
    else (w1 :: syn_get t w1) ++ expand_tokens t [w2, w3]
  | w1 :: w2 :: w3 :: w4 :: rest =>
    if syn_mem t (joinSpace [w1, w2]) then
      (w1 :: syn_get t (joinSpace [w1, w2])) ++ expand_tokens t (w3 :: w4 :: rest)
    else if syn_mem t (joinSpace [w1, w2, w3]) then
      (w1 :: syn_get t (joinSpace [w1, w2, w3])) ++ expand_tokens t (w4 :: rest)
    else if syn_mem t (joinSpace [w1, w2, w3, w4]) then
      (w1 :: syn_get t (joinSpace [w1, w2, w3, w4])) ++ expand_tokens t rest
    else (w1 :: syn_get t w1) ++ expand_tokens t (w2 :: w3 :: w4 :: rest)

/-- `_expand_query_synonyms` with the synonym table already loaded: build the
bidirectional table, then expand the lowercased, whitespace-split question and
rejoin with single spaces. -/
def expand_query_synonyms (t : SynTable) (question : String) : String :=
  let merged := merge_reverse t (build_reverse t)
  joinSpace (expand_tokens merged (splitWs (strLower question)))

/-! ## Regular-expression rules of `_extract_entities`

The extractor's fixed patterns are compiled to continuation-passing
backtracking matchers that reproduce `re.search`: positions are tried left to
right, alternations left first, lazy quantifiers shortest first, greedy
quantifiers longest first. A matcher receives the remaining input and a
continuation; the overall result is the first capture found. -/

/-- Whitespace class `\s`. -/
def isWsChar (c : Char) : Bool := c.isWhitespace

/-- Character class `[a-z\s]` (patterns run on the lowercased question). -/
def isAZorWs (c : Char) : Bool := isLowerAZ c || c.isWhitespace

/-- Match a literal, then continue. -/
def tryLit (lit : List Char) (k : List Char → Option α) (l : List Char) : Option α :=
  if listIsPre lit l then k (l.drop lit.length) else none

/-- Left-first alternation of literals, then continue. -/
def tryAltLits (lits : List (List Char)) (k : List Char → Option α) (l : List Char) : Option α :=
  match lits with
  | [] => none
  | a :: rest => tryLit a k l <|> tryAltLits rest k l

/-- Length of the maximal leading run satisfying `p`. -/
def runLen (p : Char → Bool) : List Char → Nat
  | [] => 0
  | c :: rest => if p c then runLen p rest + 1 else 0

/-- Try consuming `j, j-1, …, 1` characters (greedy backtracking order). -/
def tryFromLen (k : List Char → Option α) (l : List Char) : Nat → Option α
  | 0 => none
  | j + 1 => k (l.drop (j + 1)) <|> tryFromLen k l j

/-- Greedy `p+` (e.g. `\s+`): longest run first, backtracking shorter. -/
def tryPlusGreedy (p : Char → Bool) (k : List Char → Option α) (l : List Char) : Option α :=
  tryFromLen k l (runLen p l)

/-- Greedy capturing `p+` (e.g. `(\d+)`): the continuation receives the
captured characters and the rest. -/
def tryFromLenCap (k : List Char → List Char → Option α) (l : List Char) : Nat → Option α
  | 0 => none
  | j + 1 => k (l.take (j + 1)) (l.drop (j + 1)) <|> tryFromLenCap k l j

/-- Greedy capturing `p+`. -/
def tryPlusGreedyCap (p : Char → Bool) (k : List Char → List Char → Option α)
    (l : List Char) : Option α :=
  tryFromLenCap k l (runLen p l)

/-- Lazy capturing `p+?`: shortest capture first; `acc` is the capture so far. -/
def tryPlusLazyCap (p : Char → Bool) (k : List Char → List Char → Option α) :
    List Char → List Char → Option α
  | _, [] => none
  | acc, c :: rest =>
    if p c then k (acc ++ [c]) rest <|> tryPlusLazyCap p k (acc ++ [c]) rest
    else none

/-- Exactly `n` characters of class `p` (`p{n}`), then continue. -/
def tryCount : Nat → (Char → Bool) → (List Char → Option α) → List Char → Option α
  | 0, _, k, l => k l
  | _ + 1, _, _, [] => none
  | n + 1, p, k, c :: rest => if p c then tryCount n p k rest else none

/-- Optional group `(?:…)?`: greedy, try the group first, then skip it. -/
def tryOpt (m : (List Char → Option α) → List Char → Option α)
    (k : List Char → Option α) (l : List Char) : Option α :=
  m k l <|> k l

/-- Python `re.search`: try the matcher at each position, leftmost first. -/
def searchAux (m : List Char → Option α) : List Char → Option α
  | [] => m []
  | c :: rest => m (c :: rest) <|> searchAux m rest

/-- Python `str.strip()` on a character list. -/
def stripWs (l : List Char) : List Char :=
  ((l.dropWhile isWsChar).reverse.dropWhile isWsChar).reverse

/-- The 1-to-4-token phrase of `ws` starting at token `i`, joined by spaces. -/
def phrase_slice (ws : List String) (i n : Nat) : String := joinSpace ((ws.drop i).take n)

/-- Decidable form of "no single token and no 2-to-4-token phrase of `ws`
is a key of `t`". -/
def no_table_keys (t : SynTable) (ws : List String) : Bool :=
  (List.range ws.length).all fun i =>
    [1, 2, 3, 4].all fun n =>
      if i + n ≤ ws.length then !(syn_mem t (phrase_slice ws i n)) else true

/-! ## Entity extraction (`_extract_entities`) -/

/-- Extracted entities; an absent key of the Python dict is `none`/`false`. -/
structure Entities where
  programName : Option String := none
  hasDate : Bool := false
  temporalType : Option String := none
  minValue : Option Int := none
  maxValue : Option Int := none
  comparison : Option String := none
deriving DecidableEq, Repr

/-- Python `if not entities:` — true when no entity was detected. -/
def Entities.isEmptyE (e : Entities) : Bool :=
  e.programName.isNone && !e.hasDate && e.temporalType.isNone &&
    e.minValue.isNone && e.maxValue.isNone && e.comparison.isNone

/-- Matcher for `(?:for|program|named)\s+([a-z\s]+?)(?:\s+program|\s|$)`. -/
def progPat1 (l : List Char) : Option (List Char) :=
  tryAltLits ["for".toList, "program".toList, "named".toList]
    (tryPlusGreedy isWsChar
      (tryPlusLazyCap isAZorWs (fun cap l2 =>
        tryPlusGreedy isWsChar (tryLit "program".toList (fun _ => some cap)) l2
        <|> (match l2 with
             | c :: _ => if isWsChar c then some cap else none
             | [] => none)
        <|> (if l2.isEmpty then some cap else none)) [])) l

/-- Matcher for `program\s+([a-z\s]+?)(?:\s|$)`. -/
def progPat2 (l : List Char) : Option (List Char) :=
  tryLit "program".toList
    (tryPlusGreedy isWsChar
      (tryPlusLazyCap isAZorWs (fun cap l2 =>
        (match l2 with
         | c :: _ => if isWsChar c then some cap else none
         | [] => none)
        <|> (if l2.isEmpty then some cap else none)) [])) l

/-- Matcher for `([a-z\s]+?)\s+program`. -/
def progPat3 (l : List Char) : Option (List Char) :=
  tryPlusLazyCap isAZorWs (fun cap l2 =>
    tryPlusGreedy isWsChar (tryLit "program".toList (fun _ => some cap)) l2) [] l

/-- Post-filter of a captured program name: strip, require length > 2, reject
stop words (lines 318-321). -/
def acceptName (o : Option (List Char)) : Option String :=
  match o with
  | some cap =>
    let name := stripWs cap
    if 2 < name.length && !(["the", "a", "an", "for", "with"].contains (String.mk name)) then
      some (String.mk name)
    else none
  | none => none

/-- Program-name extraction: the three patterns in order; a pattern whose
first match fails the filter contributes nothing (no `break` in the source). -/
def extract_program_name (ql : List Char) : Option String :=
  acceptName (searchAux progPat1 ql) <|> acceptName (searchAux progPat2 ql)
    <|> acceptName (searchAux progPat3 ql)

/-- Search for `\d{4}` (used both on questions and on document text). -/
def hasFourDigits (s : String) : Bool :=
  (searchAux (tryCount 4 Char.isDigit (fun _ => some ())) s.toList).isSome

/-- Matcher for `(?:created|updated|modified)\s+(?:in|on|at|recently)`. -/
def datePat3 (l : List Char) : Option Unit :=
  tryAltLits ["created".toList, "updated".toList, "modified".toList]
    (tryPlusGreedy isWsChar
      (tryAltLits ["in".toList, "on".toList, "at".toList, "recently".toList]
        (fun _ => some ()))) l

/-- Matcher for `(?:in|during)\s+\d{4}`. -/
def datePat4 (l : List Char) : Option Unit :=
  tryAltLits ["in".toList, "during".toList]
    (tryPlusGreedy isWsChar (tryCount 4 Char.isDigit (fun _ => some ()))) l

/-- Matcher for `last\s+(?:used|created|updated|modified)`. -/
def datePat6 (l : List Char) : Option Unit :=
  tryLit "last".toList
    (tryPlusGreedy isWsChar
      (tryAltLits ["used".toList, "created".toList, "updated".toList, "modified".toList]
        (fun _ => some ()))) l

/-- The temporal flag `has_date` (lines 324-336): the six patterns are tried
in order and only set the flag, so the flag is their disjunction. -/
def extract_has_date (qs : String) (ql : List Char) : Bool :=
  hasFourDigits qs
  || ["last", "past", "recent", "since", "before", "after"].any (fun w => strHasSub w qs)
  || (searchAux datePat3 ql).isSome
  || (searchAux datePat4 ql).isSome
  || strHasSub "recently" qs
  || (searchAux datePat6 ql).isSome

/-- Matcher for `last\s+used` (inside the `updated` temporal subtype rule). -/
def lastUsedPat (l : List Char) : Option Unit :=
  tryLit "last".toList (tryPlusGreedy isWsChar (tryLit "used".toList (fun _ => some ()))) l

/-- Temporal subtype (lines 338-344): fixed priority
created > updated/modified/"last used" > executed/ran/run. -/
def extract_temporal_type (qs : String) (ql : List Char) : Option String :=
  if strHasSub "created" qs || strHasSub "creation" qs then some "created"
  else if strHasSub "updated" qs || strHasSub "modified" qs
      || (searchAux lastUsedPat ql).isSome then some "updated"
  else if strHasSub "executed" qs || strHasSub "ran" qs || strHasSub "run" qs then
    some "executed"
  else none

/-- Digit characters to a number (`int(match.group(1))`). -/
def digitsToNat (l : List Char) : Nat := l.foldl (fun a c => 10 * a + (c.toNat - 48)) 0

/-- Matcher for `(?:more|greater|over)\s+than\s+(\d+)`. -/
def numPat1 (l : List Char) : Option (List Char) :=
  tryAltLits ["more".toList, "greater".toList, "over".toList]
    (tryPlusGreedy isWsChar
      (tryLit "than".toList
        (tryPlusGreedy isWsChar
          (tryPlusGreedyCap Char.isDigit (fun cap _ => some cap))))) l

/-- Matcher for `(\d+)\s+(?:or\s+)?more`. -/
def numPat2 (l : List Char) : Option (List Char) :=
  tryPlusGreedyCap Char.isDigit (fun cap l2 =>
    tryPlusGreedy isWsChar
      (tryOpt (fun k => tryLit "or".toList (tryPlusGreedy isWsChar k))
        (tryLit "more".toList (fun _ => some cap))) l2) l

/-- Matcher for `(?:less|fewer|under)\s+than\s+(\d+)`. -/
def numPat3 (l : List Char) : Option (List Char) :=
  tryAltLits ["less".toList, "fewer".toList, "under".toList]
    (tryPlusGreedy isWsChar
      (tryLit "than".toList
        (tryPlusGreedy isWsChar
          (tryPlusGreedyCap Char.isDigit (fun cap _ => some cap))))) l

/-- Matcher for `(\d+)\s+(?:or\s+)?less`. -/
def numPat4 (l : List Char) : Option (List Char) :=
  tryPlusGreedyCap Char.isDigit (fun cap l2 =>
    tryPlusGreedy isWsChar
      (tryOpt (fun k => tryLit "or".toList (tryPlusGreedy isWsChar k))
        (tryLit "less".toList (fun _ => some cap))) l2) l

/-- Numeric bounds (lines 346-361): first matching pattern wins; the first two
pattern strings contain "more"/"greater"/"over" so they set `min_value`, the
last two set `max_value`. -/
def extract_numeric (ql : List Char) : Option Int × Option Int :=
  match searchAux numPat1 ql with
  | some cap => (some (digitsToNat cap : Int), none)
  | none =>
    match searchAux numPat2 ql with
    | some cap => (some (digitsToNat cap : Int), none)
    | none =>
      match searchAux numPat3 ql with
      | some cap => (none, some (digitsToNat cap : Int))
      | none =>
        match searchAux numPat4 ql with
        | some cap => (none, some (digitsToNat cap : Int))
        | none => (none, none)

/-- Matcher for `(?:greater|more|higher|above)\s+than`. -/
def cmpPatGt (l : List Char) : Option Unit :=
  tryAltLits ["greater".toList, "more".toList, "higher".toList, "above".toList]
    (tryPlusGreedy isWsChar (tryLit "than".toList (fun _ => some ()))) l

/-- Matcher for `(?:less|fewer|lower|below)\s+than`. -/
def cmpPatLt (l : List Char) : Option Unit :=
  tryAltLits ["less".toList, "fewer".toList, "lower".toList, "below".toList]
    (tryPlusGreedy isWsChar (tryLit "than".toList (fun _ => some ()))) l

/-- Comparison operator (lines 364-369). -/
def extract_comparison (qs : String) (ql : List Char) : Option String :=
  if (searchAux cmpPatGt ql).isSome then some ">"
  else if (searchAux cmpPatLt ql).isSome then some "<"
  else if strHasSub "equal" qs || strHasSub "same" qs || strHasSub "exactly" qs then some "="
  else none

/-- `_extract_entities` (lines 304-371), applied to the raw question; every
rule runs on the lowercased question. -/
def extract_entities (question : String) : Entities :=
  let qs := strLower question
  let ql := qs.toList
  let nums := extract_numeric ql
  { programName := extract_program_name ql
    hasDate := extract_has_date qs ql
    temporalType := extract_temporal_type qs ql
    minValue := nums.1
    maxValue := nums.2
    comparison := extract_comparison qs ql }

/-! ## Documents and scoring -/

/-- The `metadata` mapping of a stored document; keys the service never reads
are omitted, absent keys are `none` (or `[]` for `keywords`, which the source
reads with default `[]`). -/
structure DocMeta where
  model : Option String := none
  table : Option String := none
  column : Option String := none
  keywords : List String := []
  source : Option String := none
  recipeType : Option String := none
  joinHints : Option (List String) := none
  semantics : Option String := none
  sourceFile : Option String := none
deriving DecidableEq, Repr, Inhabited

/-- A document record. Stored documents have the score fields `none`; the
scoring pass sets them on per-query copies. -/
structure Doc where
  id : Option String := none
  docType : Option String := none
  text : String := ""
  metadata : DocMeta := {}
  score : Option ℚ := none
  vectorScore : Option ℚ := none
  lexicalBoost : Option ℚ := none
  exactMatchBoost : Option ℚ := none
  recipeBoost : Option ℚ := none
  penalty : Option ℚ := none
  entityBoost : Option ℚ := none
deriving DecidableEq, Repr, Inhabited

/-- Python truthiness of `metadata.get(key)` for a string value. -/
def optTruthy (o : Option String) : Bool :=
  match o with
  | some s => s != ""
  | none => false

/-- `_extract_keywords` (lines 161-165): regex-tokenize the lowercased text
into letter runs and deduplicate. The source materializes `list(set(words))`
whose order Python leaves unspecified; the embedding fixes first-occurrence
order, and every use below is order-insensitive (sums and `any`). -/
def extract_keywords (text : String) : List String :=
  dedupFirst (lowerRuns (strLower text))

/-- `_lexical_boost` (lines 167-208). -/
def lexical_boost (doc : Doc) (query_keywords : List String) : ℚ :=
  let status_keywords : List String :=
    ["running", "completed", "active", "inactive", "status", "state", "finished", "done"]
  let has_status_keyword := query_keywords.any (fun kw => status_keywords.contains kw)
  let doc_keywords := doc.metadata.keywords
  let b1 : ℚ := query_keywords.foldl
    (fun b qkw => if doc_keywords.contains qkw then qadd b 2 else b) 0
  let col_name := doc.metadata.column.getD ""
  let model_name := doc.metadata.model.getD ""
  let table_name := doc.metadata.table.getD ""
  let b2 : ℚ :=
    if has_status_keyword && (col_name != "") && (strLower col_name == "status") then
      qadd 4 (query_keywords.foldl (fun b qkw =>
        if ["running", "completed", "active", "inactive", "finished", "done"].contains qkw
        then qadd b 2 else b) 0)
    else 0
  let b3 : ℚ := query_keywords.foldl (fun b qkw =>
    let b := if (col_name != "") && strHasSub qkw (strLower col_name) then qadd b 3 else b
    let b := if (model_name != "") && strHasSub qkw (strLower model_name) then qadd b 2 else b
    if (table_name != "") && strHasSub qkw (strLower table_name) then qadd b (mkRat 3 2) else b) 0
  let doc_text := strLower doc.text
  let b4 : ℚ := query_keywords.foldl
    (fun b qkw => if strHasSub qkw doc_text then qadd b (mkRat 1 2) else b) 0
  qadd (qadd (qadd b1 b2) b3) b4

/-- `_exact_match_boost` (lines 210-224): +6 only if some query keyword is a
substring of the model name and some (possibly different) one of the column name. -/
def exact_match_boost (doc : Doc) (query_keywords : List String) : ℚ :=
  let col_name := strLower (doc.metadata.column.getD "")
  let model_name := strLower (doc.metadata.model.getD "")
  let model_match := query_keywords.any (fun kw => strHasSub kw model_name)
  let col_match := query_keywords.any (fun kw => strHasSub kw col_name)
  if model_match && col_match then 6 else 0

/-- `_recipe_pattern_boost` (lines 226-263). -/
def recipe_pattern_boost (doc : Doc) (question : String) (entities : Entities) : ℚ :=
  if doc.docType != some "query_recipe" then 0
  else
    let question_lower := strLower question
    let recipe_type := doc.metadata.recipeType.getD ""
    let b1 : ℚ := if doc.metadata.source == some "curated" then 4 else 0
    let b2 : ℚ :=
      if recipe_type == "aggregation"
          && ["how many", "count", "total", "sum", "average", "avg"].any
              (fun t => strHasSub t question_lower) then 2 else 0
    let b3 : ℚ :=
      if recipe_type == "temporal"
          && (entities.hasDate
              || ["recent", "last", "created", "updated", "year"].any
                  (fun t => strHasSub t question_lower)) then 2 else 0
    let b4 : ℚ :=
      if recipe_type == "status"
          && ["running", "completed", "active", "status", "state"].any
              (fun t => strHasSub t question_lower) then 2 else 0
    let b5 : ℚ :=
      if recipe_type == "relationship"
          && ["related", "linked", "for", "associated", "connection"].any
              (fun t => strHasSub t question_lower) then 2 else 0
    qadd (qadd (qadd (qadd b1 b2) b3) b4) b5

/-- `_penalize_incorrect_matches` (lines 265-302); the returned value is the
(non-positive) running `penalty`. -/
def penalize_incorrect_matches (doc : Doc) (query_keywords : List String)
    (vector_score : ℚ) : ℚ :=
  let model_name := strLower (doc.metadata.model.getD "")
  let col_name := strLower (doc.metadata.column.getD "")
  let table_name := strLower (doc.metadata.table.getD "")
  let has_model_match := query_keywords.any (fun kw => strHasSub kw model_name)
  let has_col_match := query_keywords.any (fun kw => strHasSub kw col_name)
  let has_table_match := query_keywords.any (fun kw => strHasSub kw table_name)
  let has_text_match := query_keywords.any (fun kw => strHasSub kw (strLower doc.text))
  let p1 : ℚ :=
    if has_model_match || has_col_match || has_table_match || has_text_match then 0
    else if vector_score < mkRat 3 10 then -3 else 0
  let domains : List (List String) :=
    [["program", "programs"], ["simulation", "simulations"],
     ["experiment", "experiments"], ["research"]]
  let p2 : ℚ := domains.foldl (fun p kws =>
    let query_has_domain := kws.any (fun kw => query_keywords.contains kw)
    let doc_has_domain := kws.any (fun kw => strHasSub kw model_name || strHasSub kw table_name)
    if query_has_domain && !doc_has_domain then
      (if vector_score < mkRat 2 5 then qsub p 2 else p)
    else p) 0
  qadd p1 p2

/-- The per-document boost of `_boost_by_entities` (lines 379-420). -/
def entity_boost_amount (doc : Doc) (entities : Entities) : ℚ :=
  let b1 : ℚ :=
    match entities.programName with
    | some program_name =>
      qadd (if strHasSub "program" (strLower doc.text) then 2 else 0)
        (if strHasSub program_name (strLower doc.text) then 3 else 0)
    | none => 0
  let b2 : ℚ :=
    if entities.hasDate then
      let col_name := strLower (doc.metadata.column.getD "")
      let temporal_type := entities.temporalType.getD ""
      qadd (qadd
        (if (col_name != "")
          && ["date", "time", "at", "created", "updated", "executed", "modified"].any
              (fun t => strHasSub t col_name) then 2 else 0)
        (if col_name != "" then
          (if temporal_type == "created" && strHasSub "created" col_name then 2
           else if temporal_type == "updated"
               && (strHasSub "updated" col_name || strHasSub "modified" col_name
                   || strHasSub "last_used" col_name) then 2
           else if temporal_type == "executed" && strHasSub "executed" col_name then 2
           else 0)
         else 0))
        (if hasFourDigits doc.text then
          (if (col_name != "")
              && ["created", "updated", "date", "at"].any (fun t => strHasSub t col_name)
           then mkRat 3 2 else 0)
         else 0)
    else 0
  let b3 : ℚ :=
    if entities.minValue.isSome || entities.maxValue.isSome then
      let col_name := strLower (doc.metadata.column.getD "")
      if (col_name != "")
          && ["count", "total", "sum", "avg", "average"].any (fun t => strHasSub t col_name)
      then 1 else 0
    else 0
  qadd (qadd b1 b2) b3

/-- `_boost_by_entities` (lines 373-429): documents with a positive boost are
replaced by a copy carrying the raised score and the `entity_boost` field;
documents with zero boost pass through unmodified. -/
def boost_by_entities (docs : List Doc) (entities : Entities) : List Doc :=
  if entities.isEmptyE then docs
  else docs.map fun doc =>
    if 0 < entity_boost_amount doc entities then
      { doc with
        score := some (qadd (doc.score.getD 0) (entity_boost_amount doc entities))
        entityBoost := some (entity_boost_amount doc entities) }
    else doc

/-! ## Retrieval pipeline (`retrieve_grounding`) -/

/-- Stable descending insertion by score: a new element goes in front of the
first strictly smaller key, i.e. after every earlier element with an equal or
larger key. -/
def insert_desc (x : Doc) : List Doc → List Doc
  | [] => [x]
  | y :: ys =>
    if y.score.getD 0 ≤ x.score.getD 0 then x :: y :: ys else y :: insert_desc x ys

/-- Python `scored_docs.sort(key=lambda x: x["score"], reverse=True)`
(line 497): a stable descending sort, embedded as stable insertion sort. -/
def sort_by_score_desc : List Doc → List Doc
  | [] => []
  | x :: xs => insert_desc x (sort_by_score_desc xs)

/-- Python list indexing `documents[idx]` for a signed index: negative
indices wrap once; anything still out of range raises (`none`). -/
def py_list_get (docs : List Doc) (idx : Int) : Option Doc :=
  if 0 ≤ (if idx < 0 then idx + docs.length else idx) then
    docs.get? (if idx < 0 then idx + docs.length else idx).toNat
  else none

/-- The scored copy of a stored document (lines 468-490): the per-candidate
score breakdown attached to the copy, with
`final_score = vector + lexical + exact + recipe - abs(penalty)` and
`vector = 1 / (1 + distance)`. -/
def score_doc (doc0 : Doc) (distance : ℚ) (query_keywords : List String)
    (question : String) (entities : Entities) : Doc :=
  { doc0 with
    score := some (qsub (qadd (qadd (qadd (qdiv 1 (qadd 1 distance))
      (lexical_boost doc0 query_keywords)) (exact_match_boost doc0 query_keywords))
      (recipe_pattern_boost doc0 question entities))
      (qabs (penalize_incorrect_matches doc0 query_keywords (qdiv 1 (qadd 1 distance)))))
    vectorScore := some (qdiv 1 (qadd 1 distance))
    lexicalBoost := some (lexical_boost doc0 query_keywords)
    exactMatchBoost := some (exact_match_boost doc0 query_keywords)
    recipeBoost := some (recipe_pattern_boost doc0 question entities)
    penalty := some (penalize_incorrect_matches doc0 query_keywords
      (qdiv 1 (qadd 1 distance))) }

/-- The re-ranking loop of `retrieve_grounding` (lines 463-491): candidates
with `idx >= len(documents)` are skipped; each surviving candidate yields a
copy of the stored document with the score breakdown attached. -/
def score_candidates (docs : List Doc) (query_keywords : List String) (question : String)
    (entities : Entities) : List (Int × ℚ) → Option (List Doc)
  | [] => some []
  | (idx, distance) :: rest =>
    if (docs.length : Int) ≤ idx then
      score_candidates docs query_keywords question entities rest
    else
      match py_list_get docs idx with
      | none => none
      | some doc0 =>
        match score_candidates docs query_keywords question entities rest with
        | none => none
        | some scored => some (score_doc doc0 distance query_keywords question entities :: scored)

/-- A normalized schema reference (lines 511-516). -/
structure SchemaRef where
  model : Option String
  table : Option String
  column : Option String
  sourceFile : Option String
deriving DecidableEq, Repr

/-- A recipe entry of the result (lines 519-523). -/
structure RecipeOut where
  id : Option String
  text : String
  joinHints : List String
deriving DecidableEq, Repr

/-- The grounding result (lines 26-34). -/
structure GroundingResult where
  docs : List Doc
  schemaRefs : List SchemaRef
  joinHints : List String
  recipes : List RecipeOut
  ambiguities : List String
deriving DecidableEq, Repr

/-- Schema references harvested from the top-k documents: one per
`schema_column` document, plus one per `query_recipe` document carrying
truthy `model` and `column` metadata (lines 510-532). -/
def collect_schema_refs (top_docs : List Doc) : List SchemaRef :=
  List.flatten <| top_docs.map fun doc =>
    (if doc.docType == some "schema_column" then
      [⟨doc.metadata.model, doc.metadata.table, doc.metadata.column, doc.metadata.sourceFile⟩]
     else []) ++
    (if doc.docType == some "query_recipe" && optTruthy doc.metadata.model
        && optTruthy doc.metadata.column then
      [⟨doc.metadata.model, doc.metadata.table, doc.metadata.column, doc.metadata.sourceFile⟩]
     else [])

/-- Join hints harvested per top-k document, in source order: the recipe
branch's `metadata.get("join_hints", [])` (line 524) followed by the generic
`if "join_hints" in metadata` extension (lines 534-536); recipes with hints
therefore contribute twice before deduplication. -/
def harvest_join_hints (top_docs : List Doc) : List String :=
  List.flatten <| top_docs.map fun doc =>
    (if doc.docType == some "query_recipe" then doc.metadata.joinHints.getD [] else []) ++
    (match doc.metadata.joinHints with
     | some js => js
     | none => [])

/-- Recipe entries of the result (lines 518-523). -/
def collect_recipes (top_docs : List Doc) : List RecipeOut :=
  List.flatten <| top_docs.map fun doc =>
    if doc.docType == some "query_recipe" then
      [⟨doc.id, doc.text, doc.metadata.joinHints.getD []⟩]
    else []

/-- Ambiguity notes: truthy `semantics` metadata of any top-k document
(lines 538-541), kept in order and not deduplicated. -/
def collect_ambiguities (top_docs : List Doc) : List String :=
  List.flatten <| top_docs.map fun doc =>
    match doc.metadata.semantics with
    | some s => if s != "" then [s] else []
    | none => []

/-- `retrieve_grounding` (lines 431-552). `documents` is the loaded store,
`ntotal` the index size, and `search` the black-box embed-plus-FAISS-search
composite: it receives the synonym-expanded question and the oversampled
candidate count `k = min(top_k * 2, ntotal)` and returns (index, distance)
pairs. `none` models an uncaught `IndexError` (only reachable through a
candidate index below `-len(documents)`). -/
def retrieve_grounding (documents : List Doc) (ntotal : Nat)
    (search : String → Nat → List (Int × ℚ)) (question : String) (syn : SynTable)
    (top_k : Nat) : Option GroundingResult :=
  let expanded_question := expand_query_synonyms syn question
  let entities := extract_entities question
  let k := min (top_k * 2) ntotal
  let candidates := search expanded_question k
  let query_keywords := extract_keywords question
  match score_candidates documents query_keywords question entities candidates with
  | none => none
  | some scored =>
    let boosted := boost_by_entities scored entities
    let top_docs := (sort_by_score_desc boosted).take top_k
    some
      { docs := top_docs
        schemaRefs := collect_schema_refs top_docs
        joinHints := dedupFirst (harvest_join_hints top_docs)
        recipes := collect_recipes top_docs
        ambiguities := collect_ambiguities top_docs }

/-! ## Heap model of the retrieval call

Python documents are mutable dict objects reachable both from the shared
store `self._documents` and from per-query candidate lists. To state that a
retrieval call never mutates the store, the call is re-run over an explicit
heap: addresses are indices into a `List Doc`, `dict.copy()` allocates a
fresh address, and every field assignment (`doc["score"] = …`) is a heap
write at an address. The store is the address list of the loaded documents;
the code only ever reads it. -/

/-- A heap of document records; an address is an index. -/
abbrev Heap := List Doc

/-- Read the record at an address. -/
def hget (h : Heap) (a : Nat) : Doc := h.getD a default

/-- Write the record at an address. -/
def hset (h : Heap) (a : Nat) (d : Doc) : Heap := h.set a d

/-- Allocate a fresh record (`dict.copy()` of an existing one is
`halloc h (hget h a)`); returns the extended heap and the fresh address. -/
def halloc (h : Heap) (d : Doc) : Heap × Nat := (h ++ [d], h.length)

/-- Heap version of Python list indexing over a store of addresses. -/
def py_addr_get (store : List Nat) (idx : Int) : Option Nat :=
  if 0 ≤ (if idx < 0 then idx + store.length else idx) then
    store.get? (if idx < 0 then idx + store.length else idx).toNat
  else none

/-- Heap version of the re-ranking loop (lines 463-491): each surviving
candidate's record is copied to a fresh address and the score fields are
written there; the loop returns the final heap with the scored addresses, or
the heap at the point of an `IndexError`. -/
def score_candidates_heap (store : List Nat) (query_keywords : List String)
    (question : String) (entities : Entities) :
    Heap → List (Int × ℚ) → Heap × Option (List Nat)
  | h, [] => (h, some [])
  | h, (idx, distance) :: rest =>
    if (store.length : Int) ≤ idx then
      score_candidates_heap store query_keywords question entities h rest
    else
      match py_addr_get store idx with
      | none => (h, none)
      | some a =>
        let alloc := halloc h (hget h a)
        let h1 := alloc.1
        let a' := alloc.2
        let h2 := hset h1 a' (score_doc (hget h1 a') distance query_keywords question entities)
        let stepped := score_candidates_heap store query_keywords question entities h2 rest
        (stepped.1, stepped.2.map fun scored => a' :: scored)

/-- Heap version of `_boost_by_entities` (lines 373-429): a document with a
positive boost is copied (`doc = doc.copy()`) and the copy's score and
`entity_boost` are written; a zero-boost document keeps its address. -/
def boost_by_entities_heap (entities : Entities) :
    Heap → List Nat → Heap × List Nat
  | h, [] => (h, [])
  | h, a :: rest =>
    let doc := hget h a
    let boost := entity_boost_amount doc entities
    if 0 < boost then
      let alloc := halloc h doc
      let h1 := alloc.1
      let a' := alloc.2
      let doc1 := hget h1 a'
      let h2 := hset h1 a'
        { doc1 with score := some (qadd (doc1.score.getD 0) boost), entityBoost := some boost }
      let stepped := boost_by_entities_heap entities h2 rest
      (stepped.1, a' :: stepped.2)
    else
      let stepped := boost_by_entities_heap entities h rest
      (stepped.1, a :: stepped.2)

/-- Stable descending insertion on addresses, keyed by the score in the heap. -/
def insert_desc_addr (h : Heap) (x : Nat) : List Nat → List Nat
  | [] => [x]
  | y :: ys =>
    if (hget h y).score.getD 0 ≤ (hget h x).score.getD 0 then x :: y :: ys
    else y :: insert_desc_addr h x ys

/-- The stable descending sort of line 497 on addresses. -/
def sort_addrs_desc (h : Heap) : List Nat → List Nat
  | [] => []
  | x :: xs => insert_desc_addr h x (sort_addrs_desc h xs)

/-- Heap version of `retrieve_grounding` (lines 431-552): runs the scoring
loop, the entity-boost pass, the sort, the truncation and the aggregation over
an explicit heap and always returns the final heap alongside the result. -/
def retrieve_grounding_heap (h0 : Heap) (store : List Nat) (ntotal : Nat)
    (search : String → Nat → List (Int × ℚ)) (question : String) (syn : SynTable)
    (top_k : Nat) : Heap × Option GroundingResult :=
  let expanded_question := expand_query_synonyms syn question
  let entities := extract_entities question
  let k := min (top_k * 2) ntotal
  let candidates := search expanded_question k
  let query_keywords := extract_keywords question
  match score_candidates_heap store query_keywords question entities h0 candidates with
  | (h1, none) => (h1, none)
  | (h1, some scored) =>
    let boostRun :=
      if entities.isEmptyE then (h1, scored)
      else boost_by_entities_heap entities h1 scored
    let h2 := boostRun.1
    let boosted := boostRun.2
    let top_addrs := (sort_addrs_desc h2 boosted).take top_k
    let top_docs := top_addrs.map (hget h2)
    (h2, some
      { docs := top_docs
        schemaRefs := collect_schema_refs top_docs
        joinHints := dedupFirst (harvest_join_hints top_docs)
        recipes := collect_recipes top_docs
        ambiguities := collect_ambiguities top_docs })

/-! ## Concrete instances used by specific claims -/

/-- The `schema_column` document of the end-to-end scenario of §8 of the spec. -/
def c1_doc : Doc :=
  { id := some "doc1"
    docType := some "schema_column"
    text := ""
    metadata :=
      { model := some "ProgramStatistics"
        table := some "program_statistics"
        column := some "success_count"
        keywords := ["success", "count"] } }

/-- The question of the end-to-end scenario. -/
def c1_question : String := "What is the success count for the forest fire program"

/-- A search oracle returning the single stored document at distance 1/10. -/
def c1_search : String → Nat → List (Int × ℚ) := fun _ _ => [(0, mkRat 1 10)]

/-- The grounding result of the end-to-end scenario (checked below). -/
def c1_result : GroundingResult :=
  { docs := [{ c1_doc with
      score := some (mkRat 263 11)
      vectorScore := some (mkRat 10 11)
      lexicalBoost := some 17
      exactMatchBoost := some 6
      recipeBoost := some 0
      penalty := some 0 }]
    schemaRefs :=
      [⟨some "ProgramStatistics", some "program_statistics", some "success_count", none⟩]
    joinHints := []
    recipes := []
    ambiguities := [] }

/-- A minimal scored candidate: the all-default document after scoring the
question `"test"` at distance 0. -/
def c4_scored : Doc :=
  { score := some 1
    vectorScore := some 1
    lexicalBoost := some 0
    exactMatchBoost := some 0
    recipeBoost := some 0
    penalty := some 0 }

/-- The grounding result for the minimal scored candidate. -/
def c4_result : GroundingResult :=
  { docs := [c4_scored], schemaRefs := [], joinHints := [], recipes := [], ambiguities := [] }

/-- A recipe document carrying a duplicated join hint. -/
def c6_doc : Doc :=
  { docType := some "query_recipe"
    text := "recipe"
    metadata := { joinHints := some ["J1", "J1"] } }

/-- The recipe document after scoring the question `"test"` at distance 0. -/
def c6_scored : Doc :=
  { c6_doc with
    score := some 1
    vectorScore := some 1
    lexicalBoost := some 0
    exactMatchBoost := some 0
    recipeBoost := some 0
    penalty := some 0 }

/-- The grounding result for the recipe document: the four harvested copies of
`"J1"` collapse to one. -/
def c6_result : GroundingResult :=
  { docs := [c6_scored]
    schemaRefs := []
    joinHints := ["J1"]
    recipes := [⟨none, "recipe", ["J1", "J1"]⟩]
    ambiguities := [] }

/-! ## Correctness of the executable rational operations -/

theorem qadd_eq (a b : ℚ) : qadd a b = a + b := by
  rw [qadd]
  conv_rhs => rw [← Rat.num_divInt_den a, ← Rat.num_divInt_den b]
  rw [Rat.divInt_add_divInt _ _ (Int.natCast_ne_zero.mpr a.den_nz)
    (Int.natCast_ne_zero.mpr b.den_nz)]
  congr 1
  ring

theorem qsub_eq (a b : ℚ) : qsub a b = a - b := by
  rw [qsub]
  conv_rhs => rw [← Rat.num_divInt_den a, ← Rat.num_divInt_den b]
  rw [Rat.divInt_sub_divInt _ _ (Int.natCast_ne_zero.mpr a.den_nz)
    (Int.natCast_ne_zero.mpr b.den_nz)]
  congr 1
  ring

theorem qabs_eq (a : ℚ) : qabs a = |a| := by
  rw [qabs]
  rcases le_or_lt 0 a.num with h | h
  · rw [abs_of_nonneg h, Rat.num_divInt_den,
      abs_of_nonneg (by exact_mod_cast Rat.num_nonneg.mp h)]
  · rw [abs_of_neg h, ← Rat.neg_divInt, Rat.num_divInt_den,
      abs_of_neg (by exact_mod_cast Rat.num_neg.mp h)]

theorem qdiv_eq (a b : ℚ) : qdiv a b = a / b := by
  rcases eq_or_ne b 0 with rfl | hb
  · simp [qdiv, Rat.divInt_eq_div]
  · rw [qdiv, div_eq_mul_inv, Rat.inv_def']
    conv_rhs => rw [← Rat.num_divInt_den a]
    rw [Rat.divInt_mul_divInt _ _ (Int.natCast_ne_zero.mpr a.den_nz)
      (Rat.num_ne_zero.mpr hb)]

/-! ## First-occurrence deduplication -/

theorem dedupFirstAux_sublist (l : List String) :
    ∀ seen, List.Sublist (dedupFirstAux seen l) l := by
  induction l with
  | nil => intro seen; simp [dedupFirstAux]
  | cons x xs ih =>
    intro seen
    rw [dedupFirstAux]
    split
    · exact (ih seen).cons x
    · exact (ih (x :: seen)).cons₂ x

theorem mem_dedupFirstAux (x : String) (l : List String) :
    ∀ seen, x ∈ dedupFirstAux seen l ↔ x ∈ l ∧ x ∉ seen := by
  induction l with
  | nil => intro seen; simp [dedupFirstAux]
  | cons y ys ih =>
    intro seen
    by_cases h : seen.contains y = true
    · rw [dedupFirstAux, if_pos h, ih seen]
      have hy : y ∈ seen := by simpa using h
      simp only [List.mem_cons]
      constructor
      · rintro ⟨hm, hs⟩
        exact ⟨Or.inr hm, hs⟩
      · rintro ⟨hm | hm, hs⟩
        · exact absurd (hm ▸ hy) hs
        · exact ⟨hm, hs⟩
    · have hy : y ∉ seen := by simpa using h
      rw [dedupFirstAux, if_neg h]
      simp only [List.mem_cons, ih (y :: seen), not_or]
      constructor
      · rintro (rfl | ⟨hm, hxy, hs⟩)
        · exact ⟨Or.inl rfl, hy⟩
        · exact ⟨Or.inr hm, hs⟩
      · rintro ⟨rfl | hm, hs⟩
        · exact Or.inl rfl
        · rcases eq_or_ne x y with rfl | hxy
          · exact Or.inl rfl
          · exact Or.inr ⟨hm, hxy, hs⟩

theorem nodup_dedupFirstAux (l : List String) : ∀ seen, (dedupFirstAux seen l).Nodup := by
  induction l with
  | nil => intro seen; simp [dedupFirstAux]
  | cons x xs ih =>
    intro seen
    rw [dedupFirstAux]
    split
    · exact ih seen
    · refine List.Nodup.cons (fun hx => ?_) (ih (x :: seen))
      exact ((mem_dedupFirstAux x xs (x :: seen)).mp hx).2 (List.mem_cons_self x seen)

theorem dedupFirst_nodup (l : List String) : (dedupFirst l).Nodup :=
  nodup_dedupFirstAux l []

theorem dedupFirst_sublist (l : List String) : List.Sublist (dedupFirst l) l :=
  dedupFirstAux_sublist l []

theorem mem_dedupFirst (x : String) (l : List String) : x ∈ dedupFirst l ↔ x ∈ l := by
  rw [dedupFirst, mem_dedupFirstAux]
  simp

/-! ## Claim C2: phrase-match order in the synonym expander -/

/-- Claim C2 (amended): at each cursor position the expander tries multi-word
phrase lengths 2 up to 4 in ascending order, so whenever the 2-token phrase at
the cursor is a key of the table, it is the phrase matched and consumed —
regardless of any longer 3- or 4-token key starting at the same position. -/
theorem C2_shortest_phrase_wins (t : SynTable) (w1 w2 : String) (rest : List String)
    (h : syn_mem t (joinSpace [w1, w2]) = true) :
    expand_tokens t (w1 :: w2 :: rest) =
      (w1 :: syn_get t (joinSpace [w1, w2])) ++ expand_tokens t rest := by
  match rest with
  | [] => simp [expand_tokens, h]
  | [w3] => simp [expand_tokens, h]
  | w3 :: w4 :: rest' => simp [expand_tokens, h]

/-- Witness for C2: with `"a b"` a key, the expander consumes the 2-token
phrase of `["a", "b", "c"]` and leaves `"c"` to a later step. -/
theorem C2_witness :
    expand_tokens [("a b", ["x"])] ["a", "b", "c"] = ["a", "x", "c"] :=
  (C2_shortest_phrase_wins [("a b", ["x"])] "a" "b" ["c"] (by decide)).trans (by decide)

/-- Counterexample to C2 as stated: with both `"a b"` and `"a b c"` as keys,
expanding `"a b c"` matches the SHORTER phrase `"a b"` (emitting its synonym
`"x"` and leaving `"c"`), not the longer `"a b c"` — longest-first matching
would instead produce `"a y"`. -/
theorem C2_counterexample :
    expand_query_synonyms [("a b", ["x"]), ("a b c", ["y"])] "a b c" = "a x c" ∧
      expand_query_synonyms [("a b", ["x"]), ("a b c", ["y"])] "a b c" ≠ "a y" := by
  decide

/-! ## Claim C7: out-of-bounds candidate indices are skipped -/

/-- Claim C7: a nearest-neighbor candidate whose index is at least the
document-store size contributes no candidate to the scored set and raises no
error: the scoring loop on it equals the scoring loop on the remaining
candidates. -/
theorem C7_out_of_bounds_skipped (docs : List Doc) (kws : List String) (q : String)
    (ents : Entities) (idx : Int) (dist : ℚ) (rest : List (Int × ℚ))
    (h : (docs.length : Int) ≤ idx) :
    score_candidates docs kws q ents ((idx, dist) :: rest) =
      score_candidates docs kws q ents rest := by
  rw [score_candidates, if_pos h]

/-- Witness for C7: index 0 against an empty store is skipped. -/
theorem C7_witness :
    score_candidates [] ["x"] "x" {} [((0 : Int), (1 : ℚ))] =
      score_candidates [] ["x"] "x" {} [] :=
  C7_out_of_bounds_skipped [] ["x"] "x" {} 0 1 [] (by decide)

/-! ## Claim C8: behavior of expansion when no token is a key -/

theorem syn_get_eq_nil (t : SynTable) (k : String) (h : syn_mem t k = false) :
    syn_get t k = [] := by
  rw [syn_mem] at h
  rw [syn_get]
  cases hl : t.lookup k with
  | none => rfl
  | some vs => rw [hl] at h; simp at h

theorem no_table_keys_iff (t : SynTable) (ws : List String) :
    no_table_keys t ws = true ↔
      ∀ i n, 1 ≤ n → n ≤ 4 → i + n ≤ ws.length →
        syn_mem t (phrase_slice ws i n) = false := by
  simp only [no_table_keys, List.all_eq_true, List.mem_range]
  constructor
  · intro H i n h1 h2 h3
    have hi : i < ws.length := by omega
    have hn : n ∈ [1, 2, 3, 4] := by
      have : n = 1 ∨ n = 2 ∨ n = 3 ∨ n = 4 := by omega
      rcases this with rfl | rfl | rfl | rfl <;> simp
    have := H i hi n hn
    rw [if_pos h3, Bool.not_eq_true'] at this
    exact this
  · intro H i hi n hn
    have hb : 1 ≤ n ∧ n ≤ 4 := by
      simp only [List.mem_cons, List.not_mem_nil, or_false] at hn
      omega
    split
    · rw [Bool.not_eq_true']
      exact H i n hb.1 hb.2 (by assumption)
    · rfl

theorem no_keys_tail (t : SynTable) (w : String) (ws : List String)
    (h : ∀ i n, 1 ≤ n → n ≤ 4 → i + n ≤ (w :: ws).length →
      syn_mem t (phrase_slice (w :: ws) i n) = false) :
    ∀ i n, 1 ≤ n → n ≤ 4 → i + n ≤ ws.length →
      syn_mem t (phrase_slice ws i n) = false := by
  intro i n h1 h2 h3
  have := h (i + 1) n h1 h2 (by simp only [List.length_cons]; omega)
  simpa [phrase_slice] using this

theorem expand_tokens_eq_self (t : SynTable) :
    ∀ ws : List String,
      (∀ i n, 1 ≤ n → n ≤ 4 → i + n ≤ ws.length →
        syn_mem t (phrase_slice ws i n) = false) →
      expand_tokens t ws = ws
  | [], _ => rfl
  | [w], h => by
    have h1 : syn_mem t w = false := by
      simpa [phrase_slice, joinSpace] using h 0 1 (by omega) (by omega) (by simp)
    simp [expand_tokens, syn_get_eq_nil t w h1]
  | [w1, w2], h => by
    have h1 : syn_mem t w1 = false := by
      simpa [phrase_slice, joinSpace] using h 0 1 (by omega) (by omega) (by simp)
    have h2 : syn_mem t (joinSpace [w1, w2]) = false := by
      simpa [phrase_slice] using h 0 2 (by omega) (by omega) (by simp)
    have e : expand_tokens t [w1, w2] =
        (if syn_mem t (joinSpace [w1, w2]) then w1 :: syn_get t (joinSpace [w1, w2])
         else (w1 :: syn_get t w1) ++ expand_tokens t [w2]) := rfl
    rw [e, if_neg (by simp [h2]), syn_get_eq_nil t w1 h1,
      expand_tokens_eq_self t [w2] (no_keys_tail t w1 [w2] h)]
    rfl
  | [w1, w2, w3], h => by
    have h1 : syn_mem t w1 = false := by
      simpa [phrase_slice, joinSpace] using h 0 1 (by omega) (by omega) (by simp)
    have h2 : syn_mem t (joinSpace [w1, w2]) = false := by
      simpa [phrase_slice] using h 0 2 (by omega) (by omega) (by simp)
    have h3 : syn_mem t (joinSpace [w1, w2, w3]) = false := by
      simpa [phrase_slice] using h 0 3 (by omega) (by omega) (by simp)
    have e : expand_tokens t [w1, w2, w3] =
        (if syn_mem t (joinSpace [w1, w2]) then
          (w1 :: syn_get t (joinSpace [w1, w2])) ++ expand_tokens t [w3]
         else if syn_mem t (joinSpace [w1, w2, w3]) then
          w1 :: syn_get t (joinSpace [w1, w2, w3])
         else (w1 :: syn_get t w1) ++ expand_tokens t [w2, w3]) := rfl
    rw [e, if_neg (by simp [h2]), if_neg (by simp [h3]), syn_get_eq_nil t w1 h1,
      expand_tokens_eq_self t [w2, w3] (no_keys_tail t w1 [w2, w3] h)]
    rfl
  | w1 :: w2 :: w3 :: w4 :: rest, h => by
    have h1 : syn_mem t w1 = false := by
      simpa [phrase_slice, joinSpace] using h 0 1 (by omega) (by omega)
        (by simp only [List.length_cons]; omega)
    have h2 : syn_mem t (joinSpace [w1, w2]) = false := by
      simpa [phrase_slice] using h 0 2 (by omega) (by omega)
        (by simp only [List.length_cons]; omega)
    have h3 : syn_mem t (joinSpace [w1, w2, w3]) = false := by
      simpa [phrase_slice] using h 0 3 (by omega) (by omega)
        (by simp only [List.length_cons]; omega)
    have h4 : syn_mem t (joinSpace [w1, w2, w3, w4]) = false := by
      simpa [phrase_slice] using h 0 4 (by omega) (by omega)
        (by simp only [List.length_cons]; omega)
    have e : expand_tokens t (w1 :: w2 :: w3 :: w4 :: rest) =
        (if syn_mem t (joinSpace [w1, w2]) then
          (w1 :: syn_get t (joinSpace [w1, w2])) ++ expand_tokens t (w3 :: w4 :: rest)
         else if syn_mem t (joinSpace [w1, w2, w3]) then
          (w1 :: syn_get t (joinSpace [w1, w2, w3])) ++ expand_tokens t (w4 :: rest)
         else if syn_mem t (joinSpace [w1, w2, w3, w4]) then
          (w1 :: syn_get t (joinSpace [w1, w2, w3, w4])) ++ expand_tokens t rest
         else (w1 :: syn_get t w1) ++ expand_tokens t (w2 :: w3 :: w4 :: rest)) := rfl
    rw [e, if_neg (by simp [h2]), if_neg (by simp [h3]), if_neg (by simp [h4]),
      syn_get_eq_nil t w1 h1,
      expand_tokens_eq_self t (w2 :: w3 :: w4 :: rest)
        (no_keys_tail t w1 (w2 :: w3 :: w4 :: rest) h)]
    rfl

/-- Claim C8 (amended): when no single token and no 2-to-4-token phrase of the
lowercased, whitespace-split question is a key of the bidirectionally merged
synonym table, expansion returns the question lowercased with whitespace
normalized (tokens rejoined by single spaces) — which equals the question
itself exactly when the question is already in that form. -/
theorem C8_identity_on_normalized (t : SynTable) (q : String)
    (h : no_table_keys (merge_reverse t (build_reverse t)) (splitWs (strLower q)) = true) :
    expand_query_synonyms t q = joinSpace (splitWs (strLower q)) := by
  simp only [expand_query_synonyms]
  exact congrArg joinSpace (expand_tokens_eq_self _ _ ((no_table_keys_iff _ _).mp h))

/-- Witness for C8: a lowercase single-spaced question with no table keys
expands to itself. -/
theorem C8_witness :
    expand_query_synonyms [("x", ["y"])] "alpha beta" = "alpha beta" :=
  (C8_identity_on_normalized [("x", ["y"])] "alpha beta" (by decide)).trans (by decide)

/-- Counterexample to C8 as stated: with an empty table (so no token is a
key), `"Hello"` expands to `"hello"`, not to itself — expansion lowercases
and re-joins the question, so the identity law fails for any question that is
not already lowercase with single spaces. -/
theorem C8_counterexample :
    expand_query_synonyms [] "Hello" = "hello" ∧
      expand_query_synonyms [] "Hello" ≠ "Hello" := by
  decide

/-! ## Claim C3: shape of the bidirectional synonym relation -/

theorem lookup_cons_self (a k : String) (b : List String) (ps : SynTable)
    (h : a = k) : List.lookup k ((a, b) :: ps) = some b := by
  have hb : (k == a) = true := by simp [h]
  simp [List.lookup, hb]

theorem lookup_cons_ne (a k : String) (b : List String) (ps : SynTable)
    (h : ¬a = k) : List.lookup k ((a, b) :: ps) = List.lookup k ps := by
  have hb : (k == a) = false := by simp; exact fun e => h e.symm
  simp [List.lookup, hb]

theorem lookup_eq_none_iff (t : SynTable) (k : String) :
    t.lookup k = none ↔ k ∉ synKeys t := by
  induction t with
  | nil => simp [synKeys]
  | cons p ps ih =>
    obtain ⟨a, b⟩ := p
    by_cases hp : a = k
    · rw [lookup_cons_self a k b ps hp]
      simp [synKeys, hp]
    · rw [lookup_cons_ne a k b ps hp, ih]
      have hk : ¬k = a := fun e => hp e.symm
      simp [synKeys, hk]

theorem lookup_set_key_ne (t : SynTable) (k : String) (vs : List String) (k' : String)
    (h : k' ≠ k) : (set_key t k vs).lookup k' = t.lookup k' := by
  induction t with
  | nil => rfl
  | cons p ps ih =>
    obtain ⟨a, b⟩ := p
    by_cases hpk : a = k
    · have hp : ¬a = k' := by rw [hpk]; exact fun e => h e.symm
      rw [set_key, List.map_cons]
      rw [show (if (a, b).1 = k then (a, vs) else (a, b)) = (a, vs) by simp [hpk]]
      rw [lookup_cons_ne a k' vs _ hp, lookup_cons_ne a k' b ps hp]
      exact ih
    · rw [set_key, List.map_cons]
      rw [show (if (a, b).1 = k then (a, vs) else (a, b)) = (a, b) by simp [hpk]]
      by_cases hp : a = k'
      · rw [lookup_cons_self a k' b _ hp, lookup_cons_self a k' b ps hp]
      · rw [lookup_cons_ne a k' b _ hp, lookup_cons_ne a k' b ps hp]
        exact ih

theorem lookup_append_single_ne (t : SynTable) (a : String) (vs : List String)
    (k' : String) (h : a ≠ k') : (t ++ [(a, vs)]).lookup k' = t.lookup k' := by
  induction t with
  | nil => exact lookup_cons_ne a k' vs [] h
  | cons p ps ih =>
    obtain ⟨c, d⟩ := p
    by_cases hp : c = k'
    · rw [List.cons_append, lookup_cons_self c k' d _ hp, lookup_cons_self c k' d ps hp]
    · rw [List.cons_append, lookup_cons_ne c k' d _ hp, lookup_cons_ne c k' d ps hp]
      exact ih

theorem lookup_append_single_self (t : SynTable) (a : String) (vs : List String)
    (h : t.lookup a = none) : (t ++ [(a, vs)]).lookup a = some vs := by
  induction t with
  | nil => exact lookup_cons_self a a vs [] rfl
  | cons p ps ih =>
    obtain ⟨c, d⟩ := p
    by_cases hp : c = a
    · rw [lookup_cons_self c a d ps hp] at h
      exact absurd h (by simp)
    · rw [lookup_cons_ne c a d ps hp] at h
      rw [List.cons_append, lookup_cons_ne c a d _ hp]
      exact ih h

theorem merge_reverse_nil (s : SynTable) : merge_reverse s [] = s := rfl

theorem merge_reverse_cons (s : SynTable) (kv : String × List String) (rest : SynTable) :
    merge_reverse s (kv :: rest) =
      merge_reverse
        (if (s.lookup kv.1).isSome then set_key s kv.1 (dedupFirst (syn_get s kv.1 ++ kv.2))
         else s ++ [kv]) rest := rfl

theorem merge_lookup_stable (v : String) (vs : List String) :
    ∀ (rev s : SynTable), s.lookup v = some vs → v ∉ synKeys rev →
      (merge_reverse s rev).lookup v = some vs := by
  intro rev
  induction rev with
  | nil => intro s hs _; exact hs
  | cons kv rest ih =>
    intro s hs hv
    obtain ⟨a, b⟩ := kv
    have ha : a ≠ v := fun e => hv (by simp [synKeys, e])
    have hv' : v ∉ synKeys rest := fun hm =>
      hv (by
        simp only [synKeys, List.map_cons, List.mem_cons]
        exact Or.inr (by simpa [synKeys] using hm))
    have hs' : (if (s.lookup (a, b).1).isSome then
          set_key s (a, b).1 (dedupFirst (syn_get s (a, b).1 ++ (a, b).2))
        else s ++ [(a, b)]).lookup v = some vs := by
      split
      · rw [lookup_set_key_ne s a _ v (Ne.symm ha)]
        exact hs
      · rw [lookup_append_single_ne s a b v ha]
        exact hs
    rw [merge_reverse_cons]
    exact ih _ hs' hv'

theorem merge_lookup_of_not_key (v : String) :
    ∀ (rev s : SynTable), s.lookup v = none → (synKeys rev).Nodup →
      (merge_reverse s rev).lookup v = rev.lookup v := by
  intro rev
  induction rev with
  | nil => intro s hs _; exact hs
  | cons kv rest ih =>
    intro s hs hnd
    obtain ⟨a, b⟩ := kv
    have hnd' : (a :: synKeys rest).Nodup := hnd
    have hc := List.nodup_cons.mp hnd'
    by_cases hav : a = v
    · subst hav
      rw [merge_reverse_cons]
      rw [if_neg (by simp [hs])]
      rw [merge_lookup_stable a b rest (s ++ [(a, b)])
        (lookup_append_single_self s a b hs) hc.1]
      rw [lookup_cons_self a a b rest rfl]
    · have hs' : (if (s.lookup (a, b).1).isSome then
            set_key s (a, b).1 (dedupFirst (syn_get s (a, b).1 ++ (a, b).2))
          else s ++ [(a, b)]).lookup v = none := by
        split
        · rw [lookup_set_key_ne s a _ v (fun e => hav e.symm)]
          exact hs
        · rw [lookup_append_single_ne s a b v hav]
          exact hs
      rw [merge_reverse_cons]
      rw [ih _ hs' hc.2]
      rw [lookup_cons_ne a v b rest hav]

theorem synKeys_map_preserve (v k : String) :
    ∀ m : SynTable,
      synKeys (m.map (fun p => if p.1 = v then (p.1, p.2 ++ [k]) else p)) = synKeys m := by
  intro m
  induction m with
  | nil => rfl
  | cons p ps ih =>
    obtain ⟨a, b⟩ := p
    by_cases hp : a = v <;> simp only [List.map_cons, synKeys] at * <;> simp [hp, ih]

theorem synKeys_add_rev (m : SynTable) (v k : String) :
    synKeys (add_rev m v k) =
      if (m.lookup v).isSome then synKeys m else synKeys m ++ [v] := by
  rw [add_rev]
  split
  · exact synKeys_map_preserve v k m
  · simp [synKeys]

theorem nodup_synKeys_add_rev (m : SynTable) (v k : String) (h : (synKeys m).Nodup) :
    (synKeys (add_rev m v k)).Nodup := by
  rw [synKeys_add_rev]
  split
  · exact h
  · have hv : v ∉ synKeys m := by
      rw [← lookup_eq_none_iff]
      exact Option.not_isSome_iff_eq_none.mp (by assumption)
    simp [List.nodup_append, h, hv]

theorem nodup_synKeys_inner_fold (k : String) :
    ∀ (vs : List String) (m : SynTable), (synKeys m).Nodup →
      (synKeys (vs.foldl (fun m' v => add_rev m' v k) m)).Nodup := by
  intro vs
  induction vs with
  | nil => intro m h; exact h
  | cons v vrest ih => intro m h; exact ih _ (nodup_synKeys_add_rev m v k h)

theorem nodup_synKeys_build_fold :
    ∀ (t m : SynTable), (synKeys m).Nodup →
      (synKeys (t.foldl (fun m kv => kv.2.foldl (fun m' v => add_rev m' v kv.1) m) m)).Nodup := by
  intro t
  induction t with
  | nil => intro m h; exact h
  | cons kv rest ih => intro m h; exact ih _ (nodup_synKeys_inner_fold kv.1 kv.2 m h)

theorem nodup_synKeys_build_reverse (t : SynTable) : (synKeys (build_reverse t)).Nodup :=
  nodup_synKeys_build_fold t [] (by simp [synKeys])

/-- Claim C3 (amended): the reverse pass registers each value `v` of a table
entry with the list of KEYS whose value lists contain `v` (merged
set-deduplicated into the main table), not with the sibling values;
consequently expanding a one-token question equal to such a `v` (that is not
itself a key) emits `v` followed by those keys only. -/
theorem C3_reverse_registration (t : SynTable) (v : String)
    (hkey : t.lookup v = none) (hlow : strLower v = v) (htok : splitWs v = [v]) :
    expand_query_synonyms t v = joinSpace (v :: syn_get (build_reverse t) v) := by
  simp only [expand_query_synonyms, hlow, htok]
  have hm : (merge_reverse t (build_reverse t)).lookup v = (build_reverse t).lookup v :=
    merge_lookup_of_not_key v (build_reverse t) t hkey (nodup_synKeys_build_reverse t)
  have e : expand_tokens (merge_reverse t (build_reverse t)) [v]
      = v :: syn_get (merge_reverse t (build_reverse t)) v := rfl
  rw [e, syn_get, syn_get, hm]

/-- Witness for C3: with the table `{"k": ["v1", "v2"]}`, expanding `"v1"`
emits `"v1"` and the key `"k"`. -/
theorem C3_witness :
    expand_query_synonyms [("k", ["v1", "v2"])] "v1" = "v1 k" :=
  (C3_reverse_registration [("k", ["v1", "v2"])] "v1" (by decide) (by decide)
    (by decide)).trans (by decide)

/-- Counterexample to C3 as stated: with `{"k": ["v1", "v2"]}`, expanding the
one-token question `"v1"` yields `"v1 k"` — the sibling value `"v2"` that the
claim requires is absent, because each value is registered only with the keys
mapping to it, never with the other values. -/
theorem C3_counterexample :
    expand_query_synonyms [("k", ["v1", "v2"])] "v1" = "v1 k" ∧
      "v2" ∉ splitWs (expand_query_synonyms [("k", ["v1", "v2"])] "v1") := by
  decide

/-! ## Claim C10: the boundary-free "run" pattern forces a temporal subtype -/

/-- Claim C10: because the temporal-subtype regexes match substrings without
word boundaries, any question whose lowercased text contains `"run"` (e.g.
inside `"running"`) and none of the created/creation or
updated/modified/"last used" triggers gets `temporal_type = "executed"`. -/
theorem C10_run_substring_sets_executed (q : String)
    (hrun : strHasSub "run" (strLower q) = true)
    (hcreated : strHasSub "created" (strLower q) = false)
    (hcreation : strHasSub "creation" (strLower q) = false)
    (hupdated : strHasSub "updated" (strLower q) = false)
    (hmodified : strHasSub "modified" (strLower q) = false)
    (hlastused : searchAux lastUsedPat (strLower q).toList = none) :
    (extract_entities q).temporalType = some "executed" := by
  simp only [String.toList] at hlastused
  simp [extract_entities, extract_temporal_type, hrun, hcreated, hcreation,
    hupdated, hmodified, hlastused]

/-- Witness for C10: `"show running simulations"` is tagged
`temporal_type = "executed"` though it expresses no temporal intent. -/
theorem C10_witness :
    (extract_entities "show running simulations").temporalType = some "executed" :=
  C10_run_substring_sets_executed "show running simulations" (by decide) (by decide)
    (by decide) (by decide) (by decide) (by decide)

/-! ## Pipeline lemmas shared by claims C4, C5 and C6 -/

theorem retrieve_grounding_eq (documents : List Doc) (ntotal : Nat)
    (search : String → Nat → List (Int × ℚ)) (question : String) (syn : SynTable)
    (top_k : Nat) :
    retrieve_grounding documents ntotal search question syn top_k =
      match score_candidates documents (extract_keywords question) question
          (extract_entities question)
          (search (expand_query_synonyms syn question) (min (top_k * 2) ntotal)) with
      | none => none
      | some scored =>
        some
          { docs := (sort_by_score_desc
              (boost_by_entities scored (extract_entities question))).take top_k
            schemaRefs := collect_schema_refs ((sort_by_score_desc
              (boost_by_entities scored (extract_entities question))).take top_k)
            joinHints := dedupFirst (harvest_join_hints ((sort_by_score_desc
              (boost_by_entities scored (extract_entities question))).take top_k))
            recipes := collect_recipes ((sort_by_score_desc
              (boost_by_entities scored (extract_entities question))).take top_k)
            ambiguities := collect_ambiguities ((sort_by_score_desc
              (boost_by_entities scored (extract_entities question))).take top_k) } := rfl

theorem py_list_get_mem (docs : List Doc) (idx : Int) (d : Doc)
    (h : py_list_get docs idx = some d) : d ∈ docs := by
  rw [py_list_get] at h
  split at h
  · split at h
    · exact List.get?_mem h
    · cases h
  · split at h
    · exact List.get?_mem h
    · cases h

theorem score_candidates_cons_eq (docs : List Doc) (kws : List String) (q : String)
    (ents : Entities) (idx : Int) (dist : ℚ) (rest : List (Int × ℚ)) :
    score_candidates docs kws q ents ((idx, dist) :: rest) =
      if (docs.length : Int) ≤ idx then score_candidates docs kws q ents rest
      else
        match py_list_get docs idx with
        | none => none
        | some doc0 =>
          match score_candidates docs kws q ents rest with
          | none => none
          | some scored => some (score_doc doc0 dist kws q ents :: scored) := rfl

theorem score_candidates_bound (docs : List Doc) (kws : List String) (q : String)
    (ents : Entities) (hstore : ∀ d0 ∈ docs, d0.entityBoost = none) :
    ∀ (cands : List (Int × ℚ)) (scored : List Doc),
      score_candidates docs kws q ents cands = some scored →
      ∀ d ∈ scored, d.entityBoost = none ∧
        d.score.getD 0 ≤ d.vectorScore.getD 0 + d.lexicalBoost.getD 0 +
          d.exactMatchBoost.getD 0 + d.recipeBoost.getD 0 := by
  intro cands
  induction cands with
  | nil =>
    intro scored h d hd
    have h' : some ([] : List Doc) = some scored := h
    obtain rfl := (Option.some.inj h').symm
    exact absurd hd (by simp)
  | cons c rest ih =>
    obtain ⟨idx, dist⟩ := c
    intro scored h d hd
    rw [score_candidates_cons_eq] at h
    split at h
    · exact ih scored h d hd
    · cases hpg : py_list_get docs idx with
      | none => rw [hpg] at h; cases h
      | some doc0 =>
        rw [hpg] at h
        cases hrec : score_candidates docs kws q ents rest with
        | none => rw [hrec] at h; cases h
        | some scored' =>
          rw [hrec] at h
          simp only [Option.some.injEq] at h
          subst h
          rcases List.mem_cons.mp hd with rfl | hd'
          · refine ⟨?_, ?_⟩
            · exact hstore doc0 (py_list_get_mem docs idx doc0 hpg)
            · show (some (qsub (qadd (qadd (qadd (qdiv 1 (qadd 1 dist))
                  (lexical_boost doc0 kws)) (exact_match_boost doc0 kws))
                  (recipe_pattern_boost doc0 q ents))
                  (qabs (penalize_incorrect_matches doc0 kws
                    (qdiv 1 (qadd 1 dist)))))).getD 0 ≤
                (some (qdiv 1 (qadd 1 dist))).getD 0 +
                  (some (lexical_boost doc0 kws)).getD 0 +
                  (some (exact_match_boost doc0 kws)).getD 0 +
                  (some (recipe_pattern_boost doc0 q ents)).getD 0
              simp only [Option.getD_some, qsub_eq, qadd_eq, qabs_eq]
              exact sub_le_self _ (abs_nonneg _)
          · exact ih scored' hrec d hd'

theorem boost_by_entities_bound (ents : Entities) (scored : List Doc)
    (hall : ∀ d ∈ scored, d.entityBoost = none ∧
      d.score.getD 0 ≤ d.vectorScore.getD 0 + d.lexicalBoost.getD 0 +
        d.exactMatchBoost.getD 0 + d.recipeBoost.getD 0) :
    ∀ d ∈ boost_by_entities scored ents,
      d.score.getD 0 ≤ d.vectorScore.getD 0 + d.lexicalBoost.getD 0 +
        d.exactMatchBoost.getD 0 + d.recipeBoost.getD 0 + d.entityBoost.getD 0 := by
  intro d hd
  rw [boost_by_entities] at hd
  split at hd
  · have h := hall d hd
    rw [h.1]
    simpa using h.2
  · simp only [List.mem_map] at hd
    obtain ⟨d', hd', rfl⟩ := hd
    have h := hall d' hd'
    by_cases hb : 0 < entity_boost_amount d' ents
    · simp only [hb, if_true]
      show (some (qadd (d'.score.getD 0) (entity_boost_amount d' ents))).getD 0 ≤
        d'.vectorScore.getD 0 + d'.lexicalBoost.getD 0 + d'.exactMatchBoost.getD 0 +
          d'.recipeBoost.getD 0 + (some (entity_boost_amount d' ents)).getD 0
      simp only [Option.getD_some, qadd_eq]
      linarith [h.2]
    · simp only [hb, if_false]
      rw [h.1]
      simpa using h.2

theorem mem_insert_desc (x d : Doc) : ∀ l, d ∈ insert_desc x l ↔ d = x ∨ d ∈ l := by
  intro l
  induction l with
  | nil => simp [insert_desc]
  | cons y ys ih =>
    rw [insert_desc]
    split
    · simp [List.mem_cons]
    · simp only [List.mem_cons, ih]
      tauto

theorem mem_sort_by_score_desc (d : Doc) : ∀ l, d ∈ sort_by_score_desc l ↔ d ∈ l := by
  intro l
  induction l with
  | nil => simp [sort_by_score_desc]
  | cons x xs ih =>
    rw [sort_by_score_desc, mem_insert_desc]
    simp [ih]

/-! ## Claim C5: at most top_k documents are returned -/

/-- Claim C5: for every question and every `top_k`, a successful
`retrieve_grounding` call returns at most `top_k` documents. -/
theorem C5_docs_le_top_k (documents : List Doc) (ntotal : Nat)
    (search : String → Nat → List (Int × ℚ)) (question : String) (syn : SynTable)
    (top_k : Nat) (res : GroundingResult)
    (h : retrieve_grounding documents ntotal search question syn top_k = some res) :
    res.docs.length ≤ top_k := by
  cases hsc : score_candidates documents (extract_keywords question) question
      (extract_entities question)
      (search (expand_query_synonyms syn question) (min (top_k * 2) ntotal)) with
  | none => rw [retrieve_grounding_eq, hsc] at h; cases h
  | some scored =>
    rw [retrieve_grounding_eq, hsc] at h
    simp only [Option.some.injEq] at h
    subst h
    exact List.length_take_le top_k _

/-- Witness for C5: the empty store yields an empty, in-bound result. -/
theorem C5_witness :
    retrieve_grounding [] 0 (fun _ _ => []) "test" [] 5 = some ⟨[], [], [], [], []⟩ ∧
      (⟨[], [], [], [], []⟩ : GroundingResult).docs.length ≤ 5 :=
  ⟨by decide,
   C5_docs_le_top_k [] 0 (fun _ _ => []) "test" [] 5 ⟨[], [], [], [], []⟩ (by decide)⟩

/-! ## Claim C6: join hints are deduplicated in first-occurrence order -/

/-- Claim C6: the `join_hints` of every successful retrieval are exactly the
first-occurrence deduplication of the hints harvested from the top-k
documents: duplicate-free, an order-preserving sublist of the harvested
sequence, and covering every harvested hint. -/
theorem C6_join_hints_dedup (documents : List Doc) (ntotal : Nat)
    (search : String → Nat → List (Int × ℚ)) (question : String) (syn : SynTable)
    (top_k : Nat) (res : GroundingResult)
    (h : retrieve_grounding documents ntotal search question syn top_k = some res) :
    res.joinHints = dedupFirst (harvest_join_hints res.docs) ∧
      res.joinHints.Nodup ∧
      List.Sublist res.joinHints (harvest_join_hints res.docs) ∧
      ∀ x ∈ harvest_join_hints res.docs, x ∈ res.joinHints := by
  cases hsc : score_candidates documents (extract_keywords question) question
      (extract_entities question)
      (search (expand_query_synonyms syn question) (min (top_k * 2) ntotal)) with
  | none => rw [retrieve_grounding_eq, hsc] at h; cases h
  | some scored =>
    rw [retrieve_grounding_eq, hsc] at h
    simp only [Option.some.injEq] at h
    subst h
    exact ⟨rfl, dedupFirst_nodup _, dedupFirst_sublist _,
      fun x hx => (mem_dedupFirst x _).mpr hx⟩

/-- Witness for C6: a recipe document with a duplicated hint yields a
duplicate-free `joinHints` equal to the deduplicated harvest. -/
theorem C6_witness :
    c6_result.joinHints = dedupFirst (harvest_join_hints c6_result.docs) ∧
      c6_result.joinHints.Nodup := by
  have h := C6_join_hints_dedup [c6_doc] 1 (fun _ _ => [(0, 0)]) "test" [] 5 c6_result
    (by decide)
  exact ⟨h.1, h.2.1⟩

/-! ## Claim C4: the penalty never increases the score -/

/-- Claim C4: for every candidate of every successful retrieval over a store
whose documents carry no pre-set `entity_boost` field, the final score never
exceeds the sum of the vector score and the four boosts — the penalty is
subtracted as an absolute value, so it can only lower the score. -/
theorem C4_penalty_never_increases (documents : List Doc) (ntotal : Nat)
    (search : String → Nat → List (Int × ℚ)) (question : String) (syn : SynTable)
    (top_k : Nat) (res : GroundingResult) (d : Doc)
    (hstore : ∀ d0 ∈ documents, d0.entityBoost = none)
    (h : retrieve_grounding documents ntotal search question syn top_k = some res)
    (hd : d ∈ res.docs) :
    d.score.getD 0 ≤ d.vectorScore.getD 0 + d.lexicalBoost.getD 0 +
      d.exactMatchBoost.getD 0 + d.recipeBoost.getD 0 + d.entityBoost.getD 0 := by
  cases hsc : score_candidates documents (extract_keywords question) question
      (extract_entities question)
      (search (expand_query_synonyms syn question) (min (top_k * 2) ntotal)) with
  | none => rw [retrieve_grounding_eq, hsc] at h; cases h
  | some scored =>
    rw [retrieve_grounding_eq, hsc] at h
    simp only [Option.some.injEq] at h
    subst h
    have hd1 : d ∈ boost_by_entities scored (extract_entities question) :=
      (mem_sort_by_score_desc d _).mp (List.mem_of_mem_take hd)
    exact boost_by_entities_bound _ scored
      (score_candidates_bound documents _ question _ hstore _ scored hsc) d hd1

/-- Witness for C4: the minimal scored candidate satisfies the bound. -/
theorem C4_witness :
    c4_scored.score.getD 0 ≤ c4_scored.vectorScore.getD 0 + c4_scored.lexicalBoost.getD 0 +
      c4_scored.exactMatchBoost.getD 0 + c4_scored.recipeBoost.getD 0 +
      c4_scored.entityBoost.getD 0 :=
  C4_penalty_never_increases [{}] 1 (fun _ _ => [(0, 0)]) "test" [] 5 c4_result c4_scored
    (by decide) (by decide) (by decide)

/-! ## Claim C9: a retrieval call never mutates the document store -/

theorem frame_step (h : Heap) (d d' : Doc) (n : Nat) (hn : n ≤ h.length) :
    n ≤ (hset (h ++ [d]) h.length d').length ∧
      ∀ i, i < n → (hset (h ++ [d]) h.length d')[i]? = h[i]? := by
  constructor
  · rw [hset, List.length_set, List.length_append]
    simp
    omega
  · intro i hi
    rw [hset, List.getElem?_set_ne (by omega), List.getElem?_append_left (by omega)]

theorem score_candidates_heap_cons_eq (store : List Nat) (kws : List String)
    (q : String) (ents : Entities) (idx : Int) (dist : ℚ) (rest : List (Int × ℚ))
    (h : Heap) :
    score_candidates_heap store kws q ents h ((idx, dist) :: rest) =
      if (store.length : Int) ≤ idx then score_candidates_heap store kws q ents h rest
      else
        match py_addr_get store idx with
        | none => (h, none)
        | some a =>
          ((score_candidates_heap store kws q ents
              (hset (h ++ [hget h a]) h.length
                (score_doc (hget (h ++ [hget h a]) h.length) dist kws q ents)) rest).1,
           (score_candidates_heap store kws q ents
              (hset (h ++ [hget h a]) h.length
                (score_doc (hget (h ++ [hget h a]) h.length) dist kws q ents)) rest).2.map
             fun scored => h.length :: scored) := rfl

theorem score_candidates_heap_frame (store : List Nat) (kws : List String) (q : String)
    (ents : Entities) (n : Nat) :
    ∀ (cs : List (Int × ℚ)) (h : Heap), n ≤ h.length →
      n ≤ (score_candidates_heap store kws q ents h cs).1.length ∧
        ∀ i, i < n → (score_candidates_heap store kws q ents h cs).1[i]? = h[i]? := by
  intro cs
  induction cs with
  | nil => intro h hn; exact ⟨hn, fun i _ => rfl⟩
  | cons c rest ih =>
    obtain ⟨idx, dist⟩ := c
    intro h hn
    rw [score_candidates_heap_cons_eq]
    split
    · exact ih h hn
    · cases hpg : py_addr_get store idx with
      | none => exact ⟨hn, fun i _ => rfl⟩
      | some a =>
        obtain ⟨hl2, hg2⟩ := frame_step h (hget h a)
          (score_doc (hget (h ++ [hget h a]) h.length) dist kws q ents) n hn
        obtain ⟨ih1, ih2⟩ := ih _ hl2
        exact ⟨ih1, fun i hi => (ih2 i hi).trans (hg2 i hi)⟩

theorem boost_by_entities_heap_cons_eq (ents : Entities) (h : Heap) (a : Nat)
    (rest : List Nat) :
    boost_by_entities_heap ents h (a :: rest) =
      if 0 < entity_boost_amount (hget h a) ents then
        ((boost_by_entities_heap ents
            (hset (h ++ [hget h a]) h.length
              { hget (h ++ [hget h a]) h.length with
                score := some (qadd ((hget (h ++ [hget h a]) h.length).score.getD 0)
                  (entity_boost_amount (hget h a) ents))
                entityBoost := some (entity_boost_amount (hget h a) ents) }) rest).1,
         h.length :: (boost_by_entities_heap ents
            (hset (h ++ [hget h a]) h.length
              { hget (h ++ [hget h a]) h.length with
                score := some (qadd ((hget (h ++ [hget h a]) h.length).score.getD 0)
                  (entity_boost_amount (hget h a) ents))
                entityBoost := some (entity_boost_amount (hget h a) ents) }) rest).2)
      else
        ((boost_by_entities_heap ents h rest).1,
         a :: (boost_by_entities_heap ents h rest).2) := rfl

theorem boost_by_entities_heap_frame (ents : Entities) (n : Nat) :
    ∀ (addrs : List Nat) (h : Heap), n ≤ h.length →
      n ≤ (boost_by_entities_heap ents h addrs).1.length ∧
        ∀ i, i < n → (boost_by_entities_heap ents h addrs).1[i]? = h[i]? := by
  intro addrs
  induction addrs with
  | nil => intro h hn; exact ⟨hn, fun i _ => rfl⟩
  | cons a rest ih =>
    intro h hn
    rw [boost_by_entities_heap_cons_eq]
    split
    · obtain ⟨hl2, hg2⟩ := frame_step h (hget h a)
        { hget (h ++ [hget h a]) h.length with
          score := some (qadd ((hget (h ++ [hget h a]) h.length).score.getD 0)
            (entity_boost_amount (hget h a) ents))
          entityBoost := some (entity_boost_amount (hget h a) ents) } n hn
      obtain ⟨ih1, ih2⟩ := ih _ hl2
      exact ⟨ih1, fun i hi => (ih2 i hi).trans (hg2 i hi)⟩
    · obtain ⟨ih1, ih2⟩ := ih h hn
      exact ⟨ih1, fun i hi => ih2 i hi⟩

theorem retrieve_grounding_heap_fst (h0 : Heap) (store : List Nat) (ntotal : Nat)
    (search : String → Nat → List (Int × ℚ)) (question : String) (syn : SynTable)
    (top_k : Nat) :
    (retrieve_grounding_heap h0 store ntotal search question syn top_k).1 =
      (match score_candidates_heap store (extract_keywords question) question
          (extract_entities question) h0
          (search (expand_query_synonyms syn question) (min (top_k * 2) ntotal)) with
      | (h1, none) => h1
      | (h1, some scored) =>
        (if (extract_entities question).isEmptyE then (h1, scored)
         else boost_by_entities_heap (extract_entities question) h1 scored).1) := by
  unfold retrieve_grounding_heap
  dsimp only
  cases score_candidates_heap store (extract_keywords question) question
      (extract_entities question) h0
      (search (expand_query_synonyms syn question) (min (top_k * 2) ntotal)) with
  | mk h1 o => cases o <;> rfl

/-- Claim C9: a retrieval call run over an explicit heap — where `dict.copy()`
allocates a fresh address and every score-field assignment is a heap write —
leaves every document record of the loaded store untouched: all writes land on
freshly allocated copies, so the heap below the initial length is identical
before and after the call. -/
theorem C9_store_unchanged (h0 : Heap) (store : List Nat) (ntotal : Nat)
    (search : String → Nat → List (Int × ℚ)) (question : String) (syn : SynTable)
    (top_k : Nat) (i : Nat) (hi : i < h0.length) :
    (retrieve_grounding_heap h0 store ntotal search question syn top_k).1[i]? = h0[i]? := by
  rw [retrieve_grounding_heap_fst]
  have hf := score_candidates_heap_frame store (extract_keywords question) question
    (extract_entities question) h0.length
    (search (expand_query_synonyms syn question) (min (top_k * 2) ntotal)) h0 le_rfl
  cases hsc : score_candidates_heap store (extract_keywords question) question
      (extract_entities question) h0
      (search (expand_query_synonyms syn question) (min (top_k * 2) ntotal)) with
  | mk h1 o =>
    rw [hsc] at hf
    cases o with
    | none => exact hf.2 i hi
    | some scored =>
      by_cases he : (extract_entities question).isEmptyE
      · simp only [he, if_true]
        exact hf.2 i hi
      · simp only [he, if_false]
        have hb := boost_by_entities_heap_frame (extract_entities question) h0.length
          scored h1 hf.1
        exact (hb.2 i hi).trans (hf.2 i hi)

/-- Witness for C9: after a full retrieval over a one-document heap, the
stored record is unchanged. -/
theorem C9_witness :
    (retrieve_grounding_heap [({} : Doc)] [0] 1 (fun _ _ => [(0, 0)]) "test" [] 5).1[0]? =
      ([({} : Doc)] : Heap)[0]? :=
  C9_store_unchanged [({} : Doc)] [0] 1 (fun _ _ => [(0, 0)]) "test" [] 5 0 (by decide)

/-! ## Claim C1: the end-to-end scenario of §8 of the spec -/

/-- Claim C1 (amended): for the question `"What is the success count for the
forest fire program"` against a store holding the `schema_column` document
with model `ProgramStatistics`, column `success_count`, table
`program_statistics` and keywords `["success", "count"]`: the document is
placed in `top_docs`; the extracted `program_name` is
`"what is the success count for the forest fire"` (the third regex pattern
captures from the start of the question, and the first pattern's capture
`"the"` is stop-listed); the `exact_match_boost` is 6.0, because the query
keywords `"program"` and `"is"` are substrings of `"programstatistics"` and
`"success"`/`"count"` are substrings of the column name; and the lexical
boost of 17.0 includes +3.0 for each of `"success"` and `"count"` as
substrings of the column name (2+2 keyword matches, 3+3 column, 2+2 model
via `"is"` and `"program"`, 1.5+1.5 table). -/
theorem C1_end_to_end :
    retrieve_grounding [c1_doc] 1 c1_search c1_question [] 5 = some c1_result ∧
      c1_result.docs.map Doc.id = [some "doc1"] ∧
      (extract_entities c1_question).programName =
        some "what is the success count for the forest fire" ∧
      exact_match_boost c1_doc (extract_keywords c1_question) = 6 ∧
      lexical_boost c1_doc (extract_keywords c1_question) = 17 ∧
      strHasSub "success" "success_count" = true ∧
      strHasSub "count" "success_count" = true := by
  decide

/-- Counterexample to C1 as stated: the extracted `program_name` is not
`"forest fire"`, and the `exact_match_boost` is not 0.0 (the substring rule
fires through the query keywords `"program"` and `"is"`, which the claim's
model-side reasoning overlooks). -/
theorem C1_counterexample :
    (extract_entities c1_question).programName ≠ some "forest fire" ∧
      exact_match_boost c1_doc (extract_keywords c1_question) ≠ 0 := by
  decide

end SchemaRag
